import Mathlib

/-!
Shallow embedding of `compute_mean.py` and the data-dump step of
`distance.py` from the oxdna_analysis_tools repository, together with
theorems settling the frozen claims about them.

Conventions of the embedding:
* Rational numbers stand in for Python/numpy floats in the accumulator
  (exact arithmetic); the normalization step, which needs a square root,
  is embedded over the reals.
* Numpy arrays of 3-vectors become `List Vec3`; elementwise array
  addition becomes `addV` (a `zipWith`).
* The external collaborators (the reader's `inbox`, Biopython's
  `SVDSuperimposer`) enter as function parameters: the spec states the
  superimposer is a pure function of its two point sets.
* The mutable state of `compute_mean`'s loop is threaded explicitly
  through `AccState`; the `align_conf` argument is part of that state so
  that its (non-)mutation is expressible.
-/

namespace OxDNA

/-- A 3-vector of rationals: one row of a numpy `(n, 3)` array. -/
structure Vec3 where
  x : ℚ
  y : ℚ
  z : ℚ
deriving DecidableEq

/-- `np.zeros(3)`. -/
def vzero : Vec3 := ⟨0, 0, 0⟩

/-- Componentwise vector addition. -/
def vadd (a b : Vec3) : Vec3 := ⟨a.x + b.x, a.y + b.y, a.z + b.z⟩

/-- Componentwise vector subtraction. -/
def vsub (a b : Vec3) : Vec3 := ⟨a.x - b.x, a.y - b.y, a.z - b.z⟩

/-- Division of a vector by a scalar (numpy `v / q`). -/
def vdiv (a : Vec3) (q : ℚ) : Vec3 := ⟨a.x / q, a.y / q, a.z / q⟩

/-- Scaling of a vector by a scalar. -/
def vscale (q : ℚ) (a : Vec3) : Vec3 := ⟨q * a.x, q * a.y, q * a.z⟩

/-- A 3x3 matrix, entry `m i j` written `mij` (row `i`, column `j`). -/
structure Mat3 where
  m00 : ℚ
  m01 : ℚ
  m02 : ℚ
  m10 : ℚ
  m11 : ℚ
  m12 : ℚ
  m20 : ℚ
  m21 : ℚ
  m22 : ℚ
deriving DecidableEq

/-- The identity matrix. -/
def idMat3 : Mat3 := ⟨1, 0, 0, 0, 1, 0, 0, 0, 1⟩

/-- `np.einsum('ij, ki -> kj', rot, X)` applied to one row `v` of `X`:
component `j` of the result is `sum_i v_i * rot_(i,j)`. -/
def vecMulMat (v : Vec3) (m : Mat3) : Vec3 :=
  ⟨v.x * m.m00 + v.y * m.m10 + v.z * m.m20,
   v.x * m.m01 + v.y * m.m11 + v.z * m.m21,
   v.x * m.m02 + v.y * m.m12 + v.z * m.m22⟩

/-- Elementwise addition of two arrays of vectors (numpy `A += B` on
`(n, 3)` arrays; `zipWith` truncates on mismatched lengths, which numpy
would reject — every theorem needing it carries the equal-length
invariant of the trajectory). -/
def addV (a b : List Vec3) : List Vec3 := List.zipWith vadd a b

/-- One nucleotide record of a configuration: its particle id `index`,
centre-of-mass position `cm_pos` and the two orientation vectors
`a1`/`a3` (the fields read by the fetch helpers of `compute_mean.py`). -/
structure Nuc where
  index : ℕ
  cm_pos : Vec3
  a1 : Vec3
  a3 : Vec3
deriving DecidableEq

/-- One trajectory frame (`base.System`): its nucleotides in file order
and the time stamp `_time` (printed only). -/
structure Frame where
  nucleotides : List Nuc
  time : ℤ
deriving DecidableEq

/-- `fetch_np`: positions of all nucleotides of a frame. -/
def fetch_np (f : Frame) : List Vec3 :=
  f.nucleotides.map (fun n => n.cm_pos)

/-- `indexed_fetch_np`: positions of the nucleotides whose `index` lies
in the index subset. -/
def indexed_fetch_np (indexes : List ℕ) (f : Frame) : List Vec3 :=
  (f.nucleotides.filter (fun n => decide (n.index ∈ indexes))).map (fun n => n.cm_pos)

/-- `fetch_a1`: primary orientation vectors of all nucleotides. -/
def fetch_a1 (f : Frame) : List Vec3 :=
  f.nucleotides.map (fun n => n.a1)

/-- `fetch_a3`: tertiary orientation vectors of all nucleotides. -/
def fetch_a3 (f : Frame) : List Vec3 :=
  f.nucleotides.map (fun n => n.a3)

/-- `compute_cms`: start from `np.zeros(3)`, add every point, divide by
the number of points. -/
def compute_cms (points : List Vec3) : Vec3 :=
  vdiv (points.foldl vadd vzero) (points.length : ℚ)

/-- The mutable state of `compute_mean`'s loop: the three running sums,
the intermediate-snapshot list, the frame counter `confid`, and the
`align_conf` array the loop reads (threaded so that mutation of the
reference would be expressible). -/
structure AccState where
  meanPos : List Vec3
  meanA1 : List Vec3
  meanA3 : List Vec3
  inter : List (List Vec3)
  confid : ℕ
  alignConf : List Vec3
deriving DecidableEq

/-- The body of `compute_mean`'s `while` loop for one frame `f`:
inbox the system, fetch positions and orientations, run the
superimposer `sup` on `(align_conf, indexed positions)` to get
`(rot, tran)`, rotate everything, translate only the positions, add
into the running sums, bump `confid`, and in serial mode append an
intermediate snapshot whenever `confid` is a multiple of `every`
(`INTERMEDIATE_EVERY`; numpy's `confid % 0.0` is `nan`, never `0`,
matching `confid % 0 = confid ≠ 0` on naturals for `confid ≥ 1`). -/
def accStep (inbox : Frame → Frame) (sup : List Vec3 → List Vec3 → Mat3 × Vec3)
    (indexes : List ℕ) (parallel : Bool) (every : ℕ)
    (st : AccState) (f : Frame) : AccState :=
  let mysystem := inbox f
  let cur_conf_pos := fetch_np mysystem
  let indexed_cur_conf_pos := indexed_fetch_np indexes mysystem
  let cur_conf_a1 := fetch_a1 mysystem
  let cur_conf_a3 := fetch_a3 mysystem
  let rt := sup st.alignConf indexed_cur_conf_pos
  let rot_pos := cur_conf_pos.map (fun p => vadd (vecMulMat p rt.1) rt.2)
  let rot_a1 := cur_conf_a1.map (fun p => vecMulMat p rt.1)
  let rot_a3 := cur_conf_a3.map (fun p => vecMulMat p rt.1)
  let meanPos := addV st.meanPos rot_pos
  let meanA1 := addV st.meanA1 rot_a1
  let meanA3 := addV st.meanA3 rot_a3
  let confid := st.confid + 1
  let inter :=
    if parallel = false ∧ confid % every = 0 then
      st.inter ++ [meanPos.map (fun v => vdiv v (confid : ℚ))]
    else st.inter
  { meanPos := meanPos, meanA1 := meanA1, meanA3 := meanA3,
    inter := inter, confid := confid, alignConf := st.alignConf }

/-- The `while mysystem != False and confid < stop` loop of
`compute_mean`: the remaining frames of the reader are the list
argument; the loop stops when it is exhausted or `confid` reaches
`stop`. -/
def accLoop (inbox : Frame → Frame) (sup : List Vec3 → List Vec3 → Mat3 × Vec3)
    (indexes : List ℕ) (parallel : Bool) (every : ℕ) (stop : ℕ) :
    List Frame → AccState → AccState
  | [], st => st
  | f :: rest, st =>
    if st.confid < stop then
      accLoop inbox sup indexes parallel every stop rest
        (accStep inbox sup indexes parallel every st f)
    else st

/-- `compute_mean(reader, align_conf, num_confs, start, stop)`.
`stop` defaults to `num_confs` and `start` to `0`; the reader first
skips `start` frames (`reader._get_system(N_skip=start)`), the sums
start as `n_nuc` zero vectors, and the loop of `accLoop` runs.  The
globals of `__main__` read by the function (`parallel`,
`INTERMEDIATE_EVERY` as `every`, `n_nuc`, the fetch helpers' `indexes`)
are passed as parameters. -/
def compute_mean (inbox : Frame → Frame) (sup : List Vec3 → List Vec3 → Mat3 × Vec3)
    (indexes : List ℕ) (parallel : Bool) (every : ℕ) (n_nuc : ℕ)
    (num_confs : ℕ) (align_conf : List Vec3) (traj : List Frame)
    (start stop : Option ℕ) : AccState :=
  let stopv := stop.getD num_confs
  let startv := start.getD 0
  accLoop inbox sup indexes parallel every stopv (traj.drop startv)
    { meanPos := List.replicate n_nuc vzero, meanA1 := List.replicate n_nuc vzero,
      meanA3 := List.replicate n_nuc vzero, inter := [], confid := 0,
      alignConf := align_conf }

/-- The vector list added into the position sum for one frame: rotation
applied and the translation added (read off the loop body). -/
def posContrib (inbox : Frame → Frame) (sup : List Vec3 → List Vec3 → Mat3 × Vec3)
    (indexes : List ℕ) (align_conf : List Vec3) (f : Frame) : List Vec3 :=
  (fetch_np (inbox f)).map (fun p =>
    vadd (vecMulMat p (sup align_conf (indexed_fetch_np indexes (inbox f))).1)
      (sup align_conf (indexed_fetch_np indexes (inbox f))).2)

/-- The vector list added into the primary-axis sum for one frame:
rotation only, no translation. -/
def a1Contrib (inbox : Frame → Frame) (sup : List Vec3 → List Vec3 → Mat3 × Vec3)
    (indexes : List ℕ) (align_conf : List Vec3) (f : Frame) : List Vec3 :=
  (fetch_a1 (inbox f)).map (fun p =>
    vecMulMat p (sup align_conf (indexed_fetch_np indexes (inbox f))).1)

/-- The vector list added into the tertiary-axis sum for one frame:
rotation only, no translation. -/
def a3Contrib (inbox : Frame → Frame) (sup : List Vec3 → List Vec3 → Mat3 × Vec3)
    (indexes : List ℕ) (align_conf : List Vec3) (f : Frame) : List Vec3 :=
  (fetch_a3 (inbox f)).map (fun p =>
    vecMulMat p (sup align_conf (indexed_fetch_np indexes (inbox f))).1)

theorem accStep_alignConf (inbox : Frame → Frame) (sup : List Vec3 → List Vec3 → Mat3 × Vec3)
    (indexes : List ℕ) (parallel : Bool) (every : ℕ) (st : AccState) (f : Frame) :
    (accStep inbox sup indexes parallel every st f).alignConf = st.alignConf := rfl

theorem accStep_confid (inbox : Frame → Frame) (sup : List Vec3 → List Vec3 → Mat3 × Vec3)
    (indexes : List ℕ) (parallel : Bool) (every : ℕ) (st : AccState) (f : Frame) :
    (accStep inbox sup indexes parallel every st f).confid = st.confid + 1 := rfl

theorem accStep_meanPos (inbox : Frame → Frame) (sup : List Vec3 → List Vec3 → Mat3 × Vec3)
    (indexes : List ℕ) (parallel : Bool) (every : ℕ) (st : AccState) (f : Frame) :
    (accStep inbox sup indexes parallel every st f).meanPos
      = addV st.meanPos (posContrib inbox sup indexes st.alignConf f) := rfl

theorem accStep_meanA1 (inbox : Frame → Frame) (sup : List Vec3 → List Vec3 → Mat3 × Vec3)
    (indexes : List ℕ) (parallel : Bool) (every : ℕ) (st : AccState) (f : Frame) :
    (accStep inbox sup indexes parallel every st f).meanA1
      = addV st.meanA1 (a1Contrib inbox sup indexes st.alignConf f) := rfl

theorem accStep_meanA3 (inbox : Frame → Frame) (sup : List Vec3 → List Vec3 → Mat3 × Vec3)
    (indexes : List ℕ) (parallel : Bool) (every : ℕ) (st : AccState) (f : Frame) :
    (accStep inbox sup indexes parallel every st f).meanA3
      = addV st.meanA3 (a3Contrib inbox sup indexes st.alignConf f) := rfl

theorem accStep_inter (inbox : Frame → Frame) (sup : List Vec3 → List Vec3 → Mat3 × Vec3)
    (indexes : List ℕ) (parallel : Bool) (every : ℕ) (st : AccState) (f : Frame) :
    (accStep inbox sup indexes parallel every st f).inter
      = if parallel = false ∧ (st.confid + 1) % every = 0 then
          st.inter ++ [(addV st.meanPos (posContrib inbox sup indexes st.alignConf f)).map
            (fun v => vdiv v ((st.confid + 1 : ℕ) : ℚ))]
        else st.inter := rfl

/-- The loop processes exactly the first `stop - confid` frames the
reader still holds: `accLoop` is a `foldl` of `accStep` over that
window. -/
theorem accLoop_eq_foldl (inbox : Frame → Frame) (sup : List Vec3 → List Vec3 → Mat3 × Vec3)
    (indexes : List ℕ) (parallel : Bool) (every : ℕ) (stop : ℕ)
    (frames : List Frame) (st : AccState) :
    accLoop inbox sup indexes parallel every stop frames st
      = List.foldl (accStep inbox sup indexes parallel every) st
          (frames.take (stop - st.confid)) := by
  induction frames generalizing st with
  | nil => simp [accLoop]
  | cons f rest ih =>
    by_cases h : st.confid < stop
    · rw [accLoop, if_pos h, ih]
      have hs : stop - st.confid = (stop - (st.confid + 1)) + 1 := by omega
      rw [accStep_confid, hs, List.take_succ_cons, List.foldl_cons]
    · rw [accLoop, if_neg h]
      have hs : stop - st.confid = 0 := by omega
      rw [hs, List.take_zero, List.foldl_nil]

theorem foldl_accStep_alignConf (inbox : Frame → Frame)
    (sup : List Vec3 → List Vec3 → Mat3 × Vec3) (indexes : List ℕ)
    (parallel : Bool) (every : ℕ) (w : List Frame) (st : AccState) :
    (List.foldl (accStep inbox sup indexes parallel every) st w).alignConf
      = st.alignConf := by
  induction w generalizing st with
  | nil => rfl
  | cons f rest ih => rw [List.foldl_cons, ih, accStep_alignConf]

theorem foldl_accStep_confid (inbox : Frame → Frame)
    (sup : List Vec3 → List Vec3 → Mat3 × Vec3) (indexes : List ℕ)
    (parallel : Bool) (every : ℕ) (w : List Frame) (st : AccState) :
    (List.foldl (accStep inbox sup indexes parallel every) st w).confid
      = st.confid + w.length := by
  induction w generalizing st with
  | nil => rfl
  | cons f rest ih =>
    rw [List.foldl_cons, ih, accStep_confid, List.length_cons]
    omega

theorem foldl_accStep_meanPos (inbox : Frame → Frame)
    (sup : List Vec3 → List Vec3 → Mat3 × Vec3) (indexes : List ℕ)
    (parallel : Bool) (every : ℕ) (w : List Frame) (st : AccState) :
    (List.foldl (accStep inbox sup indexes parallel every) st w).meanPos
      = List.foldl (fun a f => addV a (posContrib inbox sup indexes st.alignConf f))
          st.meanPos w := by
  induction w generalizing st with
  | nil => rfl
  | cons f rest ih =>
    rw [List.foldl_cons, ih, accStep_alignConf, accStep_meanPos, List.foldl_cons]

theorem foldl_accStep_meanA1 (inbox : Frame → Frame)
    (sup : List Vec3 → List Vec3 → Mat3 × Vec3) (indexes : List ℕ)
    (parallel : Bool) (every : ℕ) (w : List Frame) (st : AccState) :
    (List.foldl (accStep inbox sup indexes parallel every) st w).meanA1
      = List.foldl (fun a f => addV a (a1Contrib inbox sup indexes st.alignConf f))
          st.meanA1 w := by
  induction w generalizing st with
  | nil => rfl
  | cons f rest ih =>
    rw [List.foldl_cons, ih, accStep_alignConf, accStep_meanA1, List.foldl_cons]

theorem foldl_accStep_meanA3 (inbox : Frame → Frame)
    (sup : List Vec3 → List Vec3 → Mat3 × Vec3) (indexes : List ℕ)
    (parallel : Bool) (every : ℕ) (w : List Frame) (st : AccState) :
    (List.foldl (accStep inbox sup indexes parallel every) st w).meanA3
      = List.foldl (fun a f => addV a (a3Contrib inbox sup indexes st.alignConf f))
          st.meanA3 w := by
  induction w generalizing st with
  | nil => rfl
  | cons f rest ih =>
    rw [List.foldl_cons, ih, accStep_alignConf, accStep_meanA3, List.foldl_cons]

/-- Number of loop iterations among counter values `c+1, ..., c+m` at
which the snapshot branch fires. -/
def snapCount (parallel : Bool) (every : ℕ) (c m : ℕ) : ℕ :=
  (List.range' (c + 1) m).countP (fun j => decide (parallel = false ∧ j % every = 0))

theorem snapCount_succ (parallel : Bool) (every c m : ℕ) :
    snapCount parallel every c (m + 1)
      = (if parallel = false ∧ (c + 1) % every = 0 then 1 else 0)
        + snapCount parallel every (c + 1) m := by
  unfold snapCount
  rw [List.range'_succ, List.countP_cons]
  by_cases h : parallel = false ∧ (c + 1) % every = 0
  · simp [h, Nat.add_comm]
  · simp [h]

theorem foldl_accStep_inter_length (inbox : Frame → Frame)
    (sup : List Vec3 → List Vec3 → Mat3 × Vec3) (indexes : List ℕ)
    (parallel : Bool) (every : ℕ) (w : List Frame) (st : AccState) :
    (List.foldl (accStep inbox sup indexes parallel every) st w).inter.length
      = st.inter.length + snapCount parallel every st.confid w.length := by
  induction w generalizing st with
  | nil => simp [snapCount]
  | cons f rest ih =>
    rw [List.foldl_cons, ih, accStep_confid, List.length_cons, snapCount_succ]
    have hstep : (accStep inbox sup indexes parallel every st f).inter.length
        = st.inter.length + (if parallel = false ∧ (st.confid + 1) % every = 0 then 1 else 0) := by
      rw [accStep_inter]
      by_cases h : parallel = false ∧ (st.confid + 1) % every = 0
      · simp [h]
      · simp [h]
    rw [hstep]
    omega

/-- In a parallel chunk the snapshot branch never fires. -/
theorem foldl_accStep_inter_parallel (inbox : Frame → Frame)
    (sup : List Vec3 → List Vec3 → Mat3 × Vec3) (indexes : List ℕ)
    (every : ℕ) (w : List Frame) (st : AccState) :
    (List.foldl (accStep inbox sup indexes true every) st w).inter = st.inter := by
  induction w generalizing st with
  | nil => rfl
  | cons f rest ih =>
    rw [List.foldl_cons, ih, accStep_inter]
    simp

/-- Counting the multiples of `every` among `1, ..., F` gives
`F / every` (with the `Nat` conventions `n % 0 = n` and `F / 0 = 0`,
which match numpy where `confid % 0.0` is `nan` and never `0`). -/
theorem countP_mod_range (every F : ℕ) :
    (List.range' 1 F).countP (fun j => decide (j % every = 0)) = F / every := by
  induction F with
  | zero => simp
  | succ F ih =>
    rw [List.range'_concat, List.countP_append, ih, Nat.succ_div]
    have hiff : (1 + F) % every = 0 ↔ every ∣ (F + 1) := by
      rw [Nat.add_comm 1 F]
      constructor
      · exact fun h => Nat.dvd_of_mod_eq_zero h
      · rintro ⟨c, hc⟩; rw [hc]; exact Nat.mul_mod_right every c
    by_cases h : every ∣ (F + 1)
    · simp [hiff.mpr h, h]
    · have hm : ¬((1 + F) % every = 0) := fun hc => h (hiff.mp hc)
      simp [hm, h]

theorem vadd_assoc (a b c : Vec3) : vadd (vadd a b) c = vadd a (vadd b c) := by
  simp [vadd, add_assoc]

theorem vadd_zero_right (a : Vec3) : vadd a vzero = a := by
  simp [vadd, vzero]

theorem vadd_zero_left (a : Vec3) : vadd vzero a = a := by
  simp [vadd, vzero]

theorem addV_length (a b : List Vec3) : (addV a b).length = min a.length b.length := by
  simp [addV]

theorem addV_assoc (a b c : List Vec3) : addV (addV a b) c = addV a (addV b c) := by
  induction a generalizing b c with
  | nil => simp [addV]
  | cons x xs ih =>
    cases b with
    | nil => simp [addV]
    | cons y ys =>
      cases c with
      | nil => simp [addV]
      | cons z zs =>
        simp only [addV, List.zipWith_cons_cons, List.cons.injEq]
        exact ⟨vadd_assoc x y z, by simpa [addV] using ih ys zs⟩

theorem addV_replicate_zero_left (n : ℕ) (a : List Vec3) (h : a.length = n) :
    addV (List.replicate n vzero) a = a := by
  induction a generalizing n with
  | nil => simp [addV]
  | cons x xs ih =>
    cases n with
    | zero => simp at h
    | succ m =>
      simp only [List.replicate_succ, addV, List.zipWith_cons_cons]
      refine congrArg₂ _ (vadd_zero_left x) ?h
      exact ih m (by simpa using h)

theorem addV_replicate_zero_right (n : ℕ) (a : List Vec3) (h : a.length = n) :
    addV a (List.replicate n vzero) = a := by
  induction a generalizing n with
  | nil => simp [addV]
  | cons x xs ih =>
    cases n with
    | zero => simp at h
    | succ m =>
      simp only [List.replicate_succ, addV, List.zipWith_cons_cons]
      refine congrArg₂ _ (vadd_zero_right x) ?h
      exact ih m (by simpa using h)

/-- The accumulated sum of the per-frame contributions `c` over a frame
window, started (as in the source) from `n` zero vectors. -/
def sumContrib (c : Frame → List Vec3) (n : ℕ) (w : List Frame) : List Vec3 :=
  w.foldl (fun a f => addV a (c f)) (List.replicate n vzero)

theorem foldl_addV_length (c : Frame → List Vec3) (n : ℕ) (w : List Frame)
    (a : List Vec3) (ha : a.length = n) (hw : ∀ f ∈ w, (c f).length = n) :
    (List.foldl (fun a f => addV a (c f)) a w).length = n := by
  induction w generalizing a with
  | nil => exact ha
  | cons f rest ih =>
    rw [List.foldl_cons]
    refine ih (addV a (c f)) ?ha fun g hg => hw g (List.mem_cons_of_mem f hg)
    rw [addV_length, ha, hw f (List.mem_cons_self f rest)]
    omega

theorem sumContrib_length (c : Frame → List Vec3) (n : ℕ) (w : List Frame)
    (hw : ∀ f ∈ w, (c f).length = n) : (sumContrib c n w).length = n :=
  foldl_addV_length c n w _ (List.length_replicate n vzero) hw

theorem foldl_addV_eq (c : Frame → List Vec3) (n : ℕ) (w : List Frame)
    (a : List Vec3) (ha : a.length = n) (hw : ∀ f ∈ w, (c f).length = n) :
    List.foldl (fun a f => addV a (c f)) a w = addV a (sumContrib c n w) := by
  induction w generalizing a with
  | nil =>
    simp only [List.foldl_nil, sumContrib]
    exact (addV_replicate_zero_right n a ha).symm
  | cons f rest ih =>
    have hf : (c f).length = n := hw f (List.mem_cons_self f rest)
    have hrest : ∀ g ∈ rest, (c g).length = n :=
      fun g hg => hw g (List.mem_cons_of_mem f hg)
    have hlen : (addV a (c f)).length = n := by
      rw [addV_length, ha, hf]; omega
    rw [List.foldl_cons, ih (addV a (c f)) hlen hrest, addV_assoc]
    have hsum : sumContrib c n (f :: rest) = addV (c f) (sumContrib c n rest) := by
      unfold sumContrib
      rw [List.foldl_cons,
        show addV (List.replicate n vzero) (c f) = c f from
          addV_replicate_zero_left n (c f) hf] at *
      exact ih (c f) hf hrest
    rw [hsum]

theorem sumContrib_append (c : Frame → List Vec3) (n : ℕ) (w1 w2 : List Frame)
    (h1 : ∀ f ∈ w1, (c f).length = n) (h2 : ∀ f ∈ w2, (c f).length = n) :
    sumContrib c n (w1 ++ w2) = addV (sumContrib c n w1) (sumContrib c n w2) := by
  unfold sumContrib
  rw [List.foldl_append]
  exact foldl_addV_eq c n w2 _ (sumContrib_length c n w1 h1) h2

/-- The frame window `compute_mean` processes: after skipping `start`
frames, at most `stop` further frames (the loop counter starts at `0`
after the skip). -/
def meanWindow (traj : List Frame) (num_confs : ℕ) (start stop : Option ℕ) : List Frame :=
  (traj.drop (start.getD 0)).take (stop.getD num_confs)

theorem compute_mean_eq_foldl (inbox : Frame → Frame)
    (sup : List Vec3 → List Vec3 → Mat3 × Vec3) (indexes : List ℕ)
    (parallel : Bool) (every n_nuc num_confs : ℕ) (align_conf : List Vec3)
    (traj : List Frame) (start stop : Option ℕ) :
    compute_mean inbox sup indexes parallel every n_nuc num_confs align_conf traj start stop
      = List.foldl (accStep inbox sup indexes parallel every)
          { meanPos := List.replicate n_nuc vzero, meanA1 := List.replicate n_nuc vzero,
            meanA3 := List.replicate n_nuc vzero, inter := [], confid := 0,
            alignConf := align_conf }
          (meanWindow traj num_confs start stop) := by
  unfold compute_mean meanWindow
  rw [accLoop_eq_foldl]
  simp

theorem compute_mean_alignConf (inbox : Frame → Frame)
    (sup : List Vec3 → List Vec3 → Mat3 × Vec3) (indexes : List ℕ)
    (parallel : Bool) (every n_nuc num_confs : ℕ) (align_conf : List Vec3)
    (traj : List Frame) (start stop : Option ℕ) :
    (compute_mean inbox sup indexes parallel every n_nuc num_confs align_conf traj start stop).alignConf
      = align_conf := by
  rw [compute_mean_eq_foldl, foldl_accStep_alignConf]

theorem compute_mean_confid (inbox : Frame → Frame)
    (sup : List Vec3 → List Vec3 → Mat3 × Vec3) (indexes : List ℕ)
    (parallel : Bool) (every n_nuc num_confs : ℕ) (align_conf : List Vec3)
    (traj : List Frame) (start stop : Option ℕ) :
    (compute_mean inbox sup indexes parallel every n_nuc num_confs align_conf traj start stop).confid
      = (meanWindow traj num_confs start stop).length := by
  rw [compute_mean_eq_foldl, foldl_accStep_confid]
  simp

theorem compute_mean_meanPos (inbox : Frame → Frame)
    (sup : List Vec3 → List Vec3 → Mat3 × Vec3) (indexes : List ℕ)
    (parallel : Bool) (every n_nuc num_confs : ℕ) (align_conf : List Vec3)
    (traj : List Frame) (start stop : Option ℕ) :
    (compute_mean inbox sup indexes parallel every n_nuc num_confs align_conf traj start stop).meanPos
      = sumContrib (posContrib inbox sup indexes align_conf) n_nuc
          (meanWindow traj num_confs start stop) := by
  rw [compute_mean_eq_foldl, foldl_accStep_meanPos]
  rfl

theorem compute_mean_meanA1 (inbox : Frame → Frame)
    (sup : List Vec3 → List Vec3 → Mat3 × Vec3) (indexes : List ℕ)
    (parallel : Bool) (every n_nuc num_confs : ℕ) (align_conf : List Vec3)
    (traj : List Frame) (start stop : Option ℕ) :
    (compute_mean inbox sup indexes parallel every n_nuc num_confs align_conf traj start stop).meanA1
      = sumContrib (a1Contrib inbox sup indexes align_conf) n_nuc
          (meanWindow traj num_confs start stop) := by
  rw [compute_mean_eq_foldl, foldl_accStep_meanA1]
  rfl

theorem compute_mean_meanA3 (inbox : Frame → Frame)
    (sup : List Vec3 → List Vec3 → Mat3 × Vec3) (indexes : List ℕ)
    (parallel : Bool) (every n_nuc num_confs : ℕ) (align_conf : List Vec3)
    (traj : List Frame) (start stop : Option ℕ) :
    (compute_mean inbox sup indexes parallel every n_nuc num_confs align_conf traj start stop).meanA3
      = sumContrib (a3Contrib inbox sup indexes align_conf) n_nuc
          (meanWindow traj num_confs start stop) := by
  rw [compute_mean_eq_foldl, foldl_accStep_meanA3]
  rfl

theorem compute_mean_inter_length (inbox : Frame → Frame)
    (sup : List Vec3 → List Vec3 → Mat3 × Vec3) (indexes : List ℕ)
    (parallel : Bool) (every n_nuc num_confs : ℕ) (align_conf : List Vec3)
    (traj : List Frame) (start stop : Option ℕ) :
    (compute_mean inbox sup indexes parallel every n_nuc num_confs align_conf traj start stop).inter.length
      = snapCount parallel every 0 (meanWindow traj num_confs start stop).length := by
  rw [compute_mean_eq_foldl, foldl_accStep_inter_length]
  simp

theorem compute_mean_inter_parallel (inbox : Frame → Frame)
    (sup : List Vec3 → List Vec3 → Mat3 × Vec3) (indexes : List ℕ)
    (every n_nuc num_confs : ℕ) (align_conf : List Vec3)
    (traj : List Frame) (start stop : Option ℕ) :
    (compute_mean inbox sup indexes true every n_nuc num_confs align_conf traj start stop).inter
      = [] := by
  rw [compute_mean_eq_foldl, foldl_accStep_inter_parallel]

/-- Modelled from the spec: `UTILS/parallelize.fire_multiprocess` is not
under `src/`.  Per spec section 4.3, the frame range is partitioned into
contiguous chunks; each chunk gets a fresh reader positioned at the
chunk's start offset and runs the Frame Accumulator bounded to the
chunk, with the shared read-only reference and the parallel flag set.
`sizes` are the chunk lengths and the offset argument accumulates the
chunk start. -/
def chunkRuns (inbox : Frame → Frame) (sup : List Vec3 → List Vec3 → Mat3 × Vec3)
    (indexes : List ℕ) (every n_nuc num_confs : ℕ) (align_conf : List Vec3)
    (traj : List Frame) : ℕ → List ℕ → List AccState
  | _, [] => []
  | off, csize :: rest =>
      compute_mean inbox sup indexes true every n_nuc num_confs align_conf traj
          (some off) (some csize)
        :: chunkRuns inbox sup indexes every n_nuc num_confs align_conf traj (off + csize) rest

/-- The frame windows belonging to the chunks of `chunkRuns`. -/
def chunkWindows (traj : List Frame) : ℕ → List ℕ → List (List Frame)
  | _, [] => []
  | off, csize :: rest => (traj.drop off).take csize :: chunkWindows traj (off + csize) rest

theorem chunkWindows_flatten (traj : List Frame) (off : ℕ) (sizes : List ℕ) :
    (chunkWindows traj off sizes).flatten = (traj.drop off).take sizes.sum := by
  induction sizes generalizing off with
  | nil => simp [chunkWindows]
  | cons csize rest ih =>
    simp only [chunkWindows, List.flatten_cons, List.sum_cons]
    rw [ih, List.take_add, List.drop_drop]

/-- `np.sum(np.array([i[k] for i in out]), axis=0)`: elementwise sum of
the per-chunk partial arrays. -/
def combineSums (n_nuc : ℕ) (parts : List (List Vec3)) : List Vec3 :=
  parts.foldl addV (List.replicate n_nuc vzero)

/-- `sum((i[4] for i in out))`: total processed-frame count. -/
def combineCount (out : List AccState) : ℕ :=
  (out.map (fun r => r.confid)).sum

theorem foldl_addV_parts_length (n : ℕ) (parts : List (List Vec3)) (a : List Vec3)
    (ha : a.length = n) (hp : ∀ p ∈ parts, p.length = n) :
    (List.foldl addV a parts).length = n := by
  induction parts generalizing a with
  | nil => exact ha
  | cons p rest ih =>
    rw [List.foldl_cons]
    refine ih (addV a p) ?ha fun q hq => hp q (List.mem_cons_of_mem p hq)
    rw [addV_length, ha, hp p (List.mem_cons_self p rest)]
    omega

theorem foldl_addV_general (n : ℕ) (parts : List (List Vec3)) (a : List Vec3)
    (ha : a.length = n) (hp : ∀ p ∈ parts, p.length = n) :
    List.foldl addV a parts = addV a (List.foldl addV (List.replicate n vzero) parts) := by
  induction parts generalizing a with
  | nil => exact (addV_replicate_zero_right n a ha).symm
  | cons p rest ih =>
    have hpl : p.length = n := hp p (List.mem_cons_self p rest)
    have hrest : ∀ q ∈ rest, q.length = n := fun q hq => hp q (List.mem_cons_of_mem p hq)
    have hal : (addV a p).length = n := by rw [addV_length, ha, hpl]; omega
    rw [List.foldl_cons, ih (addV a p) hal hrest, List.foldl_cons,
      addV_replicate_zero_left n p hpl, ih p hpl hrest, addV_assoc]

theorem combineSums_windows (c : Frame → List Vec3) (n : ℕ) (ws : List (List Frame))
    (h : ∀ w ∈ ws, ∀ f ∈ w, (c f).length = n) :
    combineSums n (ws.map (sumContrib c n)) = sumContrib c n ws.flatten := by
  induction ws with
  | nil => rfl
  | cons w rest ih =>
    have hw : ∀ f ∈ w, (c f).length = n := h w (List.mem_cons_self w rest)
    have hrest : ∀ w2 ∈ rest, ∀ f ∈ w2, (c f).length = n :=
      fun w2 hw2 => h w2 (List.mem_cons_of_mem w hw2)
    have hflat : ∀ f ∈ rest.flatten, (c f).length = n := by
      intro f hf
      obtain ⟨w2, hw2, hfw⟩ := List.mem_flatten.mp hf
      exact hrest w2 hw2 f hfw
    simp only [List.map_cons, List.flatten_cons]
    rw [sumContrib_append c n w rest.flatten hw hflat, ← ih hrest]
    unfold combineSums
    rw [List.foldl_cons, addV_replicate_zero_left n _ (sumContrib_length c n w hw)]
    refine foldl_addV_general n (rest.map (sumContrib c n)) (sumContrib c n w)
      (sumContrib_length c n w hw) ?hp
    intro p hp
    obtain ⟨w2, hw2, hpw⟩ := List.mem_map.mp hp
    rw [← hpw]
    exact sumContrib_length c n w2 (hrest w2 hw2)

theorem chunkWindows_mem (traj : List Frame) (off : ℕ) (sizes : List ℕ)
    (w : List Frame) (f : Frame) (hw : w ∈ chunkWindows traj off sizes) (hf : f ∈ w) :
    f ∈ traj := by
  induction sizes generalizing off with
  | nil => simp [chunkWindows] at hw
  | cons csize rest ih =>
    simp only [chunkWindows, List.mem_cons] at hw
    rcases hw with hw | hw
    · subst hw
      exact List.mem_of_mem_drop (List.mem_of_mem_take hf)
    · exact ih (off + csize) hw

theorem chunkRuns_map_meanPos (inbox : Frame → Frame)
    (sup : List Vec3 → List Vec3 → Mat3 × Vec3) (indexes : List ℕ)
    (every n_nuc num_confs : ℕ) (align_conf : List Vec3) (traj : List Frame)
    (off : ℕ) (sizes : List ℕ) :
    (chunkRuns inbox sup indexes every n_nuc num_confs align_conf traj off sizes).map
        (fun r => r.meanPos)
      = (chunkWindows traj off sizes).map
          (sumContrib (posContrib inbox sup indexes align_conf) n_nuc) := by
  induction sizes generalizing off with
  | nil => rfl
  | cons csize rest ih =>
    simp only [chunkRuns, chunkWindows, List.map_cons]
    rw [compute_mean_meanPos, ih]
    rfl

theorem chunkRuns_map_meanA1 (inbox : Frame → Frame)
    (sup : List Vec3 → List Vec3 → Mat3 × Vec3) (indexes : List ℕ)
    (every n_nuc num_confs : ℕ) (align_conf : List Vec3) (traj : List Frame)
    (off : ℕ) (sizes : List ℕ) :
    (chunkRuns inbox sup indexes every n_nuc num_confs align_conf traj off sizes).map
        (fun r => r.meanA1)
      = (chunkWindows traj off sizes).map
          (sumContrib (a1Contrib inbox sup indexes align_conf) n_nuc) := by
  induction sizes generalizing off with
  | nil => rfl
  | cons csize rest ih =>
    simp only [chunkRuns, chunkWindows, List.map_cons]
    rw [compute_mean_meanA1, ih]
    rfl

theorem chunkRuns_map_meanA3 (inbox : Frame → Frame)
    (sup : List Vec3 → List Vec3 → Mat3 × Vec3) (indexes : List ℕ)
    (every n_nuc num_confs : ℕ) (align_conf : List Vec3) (traj : List Frame)
    (off : ℕ) (sizes : List ℕ) :
    (chunkRuns inbox sup indexes every n_nuc num_confs align_conf traj off sizes).map
        (fun r => r.meanA3)
      = (chunkWindows traj off sizes).map
          (sumContrib (a3Contrib inbox sup indexes align_conf) n_nuc) := by
  induction sizes generalizing off with
  | nil => rfl
  | cons csize rest ih =>
    simp only [chunkRuns, chunkWindows, List.map_cons]
    rw [compute_mean_meanA3, ih]
    rfl

theorem chunkRuns_map_confid (inbox : Frame → Frame)
    (sup : List Vec3 → List Vec3 → Mat3 × Vec3) (indexes : List ℕ)
    (every n_nuc num_confs : ℕ) (align_conf : List Vec3) (traj : List Frame)
    (off : ℕ) (sizes : List ℕ) :
    (chunkRuns inbox sup indexes every n_nuc num_confs align_conf traj off sizes).map
        (fun r => r.confid)
      = (chunkWindows traj off sizes).map List.length := by
  induction sizes generalizing off with
  | nil => rfl
  | cons csize rest ih =>
    simp only [chunkRuns, chunkWindows, List.map_cons]
    rw [compute_mean_confid, ih]
    rfl

theorem meanWindow_serial (traj : List Frame) :
    meanWindow traj traj.length none none = traj := by
  simp [meanWindow]

theorem posContrib_length (inbox : Frame → Frame)
    (sup : List Vec3 → List Vec3 → Mat3 × Vec3) (indexes : List ℕ)
    (align_conf : List Vec3) (f : Frame) :
    (posContrib inbox sup indexes align_conf f).length = (inbox f).nucleotides.length := by
  simp [posContrib, fetch_np]

theorem a1Contrib_length (inbox : Frame → Frame)
    (sup : List Vec3 → List Vec3 → Mat3 × Vec3) (indexes : List ℕ)
    (align_conf : List Vec3) (f : Frame) :
    (a1Contrib inbox sup indexes align_conf f).length = (inbox f).nucleotides.length := by
  simp [a1Contrib, fetch_a1]

theorem a3Contrib_length (inbox : Frame → Frame)
    (sup : List Vec3 → List Vec3 → Mat3 × Vec3) (indexes : List ℕ)
    (align_conf : List Vec3) (f : Frame) :
    (a3Contrib inbox sup indexes align_conf f).length = (inbox f).nucleotides.length := by
  simp [a3Contrib, fetch_a3]

/-- C1: for every trajectory partitioned into contiguous,
non-overlapping, collectively exhaustive chunks, elementwise addition
of the per-chunk position / primary-axis / tertiary-axis partial sums
and integer addition of the per-chunk frame counts reproduce exactly
the sums and count of one serial run of `compute_mean` over the whole
trajectory.  `sizes` are the chunk lengths (summing to the frame
count); the equal-particle-count hypothesis is the trajectory invariant
of the spec's data model. -/
theorem C1_parallel_chunk_combination (inbox : Frame → Frame)
    (sup : List Vec3 → List Vec3 → Mat3 × Vec3) (indexes : List ℕ)
    (every n_nuc : ℕ) (align_conf : List Vec3) (traj : List Frame) (sizes : List ℕ)
    (hpart : sizes.sum = traj.length)
    (hnuc : ∀ f ∈ traj, (inbox f).nucleotides.length = n_nuc) :
    combineSums n_nuc
        ((chunkRuns inbox sup indexes every n_nuc traj.length align_conf traj 0 sizes).map
          (fun r => r.meanPos))
      = (compute_mean inbox sup indexes false every n_nuc traj.length align_conf traj
          none none).meanPos
    ∧ combineSums n_nuc
        ((chunkRuns inbox sup indexes every n_nuc traj.length align_conf traj 0 sizes).map
          (fun r => r.meanA1))
      = (compute_mean inbox sup indexes false every n_nuc traj.length align_conf traj
          none none).meanA1
    ∧ combineSums n_nuc
        ((chunkRuns inbox sup indexes every n_nuc traj.length align_conf traj 0 sizes).map
          (fun r => r.meanA3))
      = (compute_mean inbox sup indexes false every n_nuc traj.length align_conf traj
          none none).meanA3
    ∧ combineCount
        (chunkRuns inbox sup indexes every n_nuc traj.length align_conf traj 0 sizes)
      = (compute_mean inbox sup indexes false every n_nuc traj.length align_conf traj
          none none).confid := by
  have hflat : (chunkWindows traj 0 sizes).flatten = traj := by
    rw [chunkWindows_flatten, hpart]
    simp
  refine ⟨?pos, ?a1, ?a3, ?cnt⟩
  case pos =>
    have hcw : ∀ w ∈ chunkWindows traj 0 sizes, ∀ f ∈ w,
        (posContrib inbox sup indexes align_conf f).length = n_nuc := by
      intro w hw f hf
      rw [posContrib_length]
      exact hnuc f (chunkWindows_mem traj 0 sizes w f hw hf)
    rw [chunkRuns_map_meanPos, combineSums_windows _ _ _ hcw, hflat,
      compute_mean_meanPos, meanWindow_serial]
  case a1 =>
    have hcw : ∀ w ∈ chunkWindows traj 0 sizes, ∀ f ∈ w,
        (a1Contrib inbox sup indexes align_conf f).length = n_nuc := by
      intro w hw f hf
      rw [a1Contrib_length]
      exact hnuc f (chunkWindows_mem traj 0 sizes w f hw hf)
    rw [chunkRuns_map_meanA1, combineSums_windows _ _ _ hcw, hflat,
      compute_mean_meanA1, meanWindow_serial]
  case a3 =>
    have hcw : ∀ w ∈ chunkWindows traj 0 sizes, ∀ f ∈ w,
        (a3Contrib inbox sup indexes align_conf f).length = n_nuc := by
      intro w hw f hf
      rw [a3Contrib_length]
      exact hnuc f (chunkWindows_mem traj 0 sizes w f hw hf)
    rw [chunkRuns_map_meanA3, combineSums_windows _ _ _ hcw, hflat,
      compute_mean_meanA3, meanWindow_serial]
  case cnt =>
    unfold combineCount
    rw [chunkRuns_map_confid, compute_mean_confid, meanWindow_serial]
    have hlen : ((chunkWindows traj 0 sizes).map List.length).sum
        = (chunkWindows traj 0 sizes).flatten.length := by
      rw [List.length_flatten]
    rw [hlen, hflat]

/-- A concrete nucleotide for evaluation at concrete inputs. -/
def cnuc (i : ℕ) (p : Vec3) : Nuc :=
  { index := i, cm_pos := p, a1 := ⟨1, 0, 0⟩, a3 := ⟨0, 0, 1⟩ }

/-- A concrete one-nucleotide frame. -/
def cframe (t : ℤ) (p : Vec3) : Frame :=
  { nucleotides := [cnuc 0 p], time := t }

/-- A concrete three-frame trajectory. -/
def ctraj : List Frame :=
  [cframe 0 ⟨1, 0, 0⟩, cframe 1 ⟨2, 0, 0⟩, cframe 2 ⟨3, 0, 0⟩]

/-- A concrete inbox function (identity re-centering). -/
def cinbox : Frame → Frame := fun f => f

/-- A concrete superimposer returning the identity rotation and zero
translation. -/
def csup : List Vec3 → List Vec3 → Mat3 × Vec3 := fun _ _ => (idMat3, vzero)

theorem C1_parallel_chunk_combination_witness :
    combineSums 1
        ((chunkRuns cinbox csup [0] 0 1 ctraj.length [vzero] ctraj 0 [1, 2]).map
          (fun r => r.meanPos))
      = (compute_mean cinbox csup [0] false 0 1 ctraj.length [vzero] ctraj none none).meanPos
    ∧ combineSums 1
        ((chunkRuns cinbox csup [0] 0 1 ctraj.length [vzero] ctraj 0 [1, 2]).map
          (fun r => r.meanA1))
      = (compute_mean cinbox csup [0] false 0 1 ctraj.length [vzero] ctraj none none).meanA1
    ∧ combineSums 1
        ((chunkRuns cinbox csup [0] 0 1 ctraj.length [vzero] ctraj 0 [1, 2]).map
          (fun r => r.meanA3))
      = (compute_mean cinbox csup [0] false 0 1 ctraj.length [vzero] ctraj none none).meanA3
    ∧ combineCount (chunkRuns cinbox csup [0] 0 1 ctraj.length [vzero] ctraj 0 [1, 2])
      = (compute_mean cinbox csup [0] false 0 1 ctraj.length [vzero] ctraj none none).confid :=
  C1_parallel_chunk_combination cinbox csup [0] 0 1 [vzero] ctraj [1, 2]
    (by decide) (by decide)

/-- C2 (counterexample): the claim predicts that with chunk bound
`[start, stop) = [1, 2)` the accumulator folds and returns
`stop - start = 1` frame; on a three-frame reader the code skips one
frame and then folds `stop = 2` frames, because the loop counter starts
at `0` after the skip and runs to `stop`. -/
theorem C2_counterexample :
    ¬ ((compute_mean cinbox csup [0] true 0 1 ctraj.length [vzero] ctraj
        (some 1) (some 2)).confid = 2 - 1) := by decide

/-- C2 (amended): for chunk parameters `start` and `stop`, the
accumulator skips the first `start` frames and then folds exactly
`min stop (F - start)` frames — `stop` many when the reader holds at
least `start + stop` frames, the number remaining after the skip
otherwise — returning that number as its frame count; the sums are the
accumulated contributions of exactly that window (`stop` is a per-chunk
frame-count bound, not a global end bound, so the count is `stop`
rather than `stop - start`). -/
theorem C2_amended_chunk_bound (inbox : Frame → Frame)
    (sup : List Vec3 → List Vec3 → Mat3 × Vec3) (indexes : List ℕ)
    (parallel : Bool) (every n_nuc num_confs : ℕ) (align_conf : List Vec3)
    (traj : List Frame) (start stop : ℕ) :
    (compute_mean inbox sup indexes parallel every n_nuc num_confs align_conf traj
        (some start) (some stop)).confid = min stop (traj.length - start)
    ∧ (compute_mean inbox sup indexes parallel every n_nuc num_confs align_conf traj
        (some start) (some stop)).meanPos
      = sumContrib (posContrib inbox sup indexes align_conf) n_nuc
          ((traj.drop start).take stop)
    ∧ (compute_mean inbox sup indexes parallel every n_nuc num_confs align_conf traj
        (some start) (some stop)).meanA1
      = sumContrib (a1Contrib inbox sup indexes align_conf) n_nuc
          ((traj.drop start).take stop)
    ∧ (compute_mean inbox sup indexes parallel every n_nuc num_confs align_conf traj
        (some start) (some stop)).meanA3
      = sumContrib (a3Contrib inbox sup indexes align_conf) n_nuc
          ((traj.drop start).take stop) := by
  refine ⟨?cnt, ?pos, ?a1, ?a3⟩
  case cnt =>
    rw [compute_mean_confid]
    simp [meanWindow]
  case pos =>
    rw [compute_mean_meanPos]
    rfl
  case a1 =>
    rw [compute_mean_meanA1]
    rfl
  case a3 =>
    rw [compute_mean_meanA3]
    rfl

theorem snapCount_serial (every F : ℕ) : snapCount false every 0 F = F / every := by
  unfold snapCount
  have hp : (fun j => decide (false = false ∧ j % every = 0))
      = (fun j => decide (j % every = 0)) := by
    funext j
    simp
  rw [hp]
  exact countP_mod_range every F

/-- C3: in serial mode over `F` frames with
`INTERMEDIATE_EVERY = F / 10` the accumulator appends exactly
`F / (F / 10)` intermediate snapshots (under the `Nat` conventions
`n % 0 = n ≠ 0` and `F / 0 = 0`, which agree with numpy where `x % 0.0`
is `nan`: a snapshot fires exactly at the positive multiples of
`F / 10`, so no snapshot fires when `F < 10`); in parallel mode every
chunk returns an empty snapshot list. -/
theorem C3_intermediate_snapshot_count (inbox : Frame → Frame)
    (sup : List Vec3 → List Vec3 → Mat3 × Vec3) (indexes : List ℕ)
    (n_nuc : ℕ) (align_conf : List Vec3) (traj : List Frame) :
    (compute_mean inbox sup indexes false (traj.length / 10) n_nuc traj.length
        align_conf traj none none).inter.length
      = traj.length / (traj.length / 10)
    ∧ ∀ (every num_confs : ℕ) (start stop : Option ℕ),
        (compute_mean inbox sup indexes true every n_nuc num_confs align_conf traj
          start stop).inter = [] := by
  constructor
  · rw [compute_mean_inter_length, meanWindow_serial, snapCount_serial]
  · intro every num_confs start stop
    exact compute_mean_inter_parallel inbox sup indexes every n_nuc num_confs
      align_conf traj start stop

/-- C4: per processed frame, the computed rotation is applied to the
full position array and to both orientation-vector arrays, but the
translation is added only to the positions: the amounts added to the
`a1`/`a3` sums are pure rotations with no translation term, so they do
not depend on the translation the superimposer returns. -/
theorem C4_translation_only_positions (inbox : Frame → Frame)
    (sup : List Vec3 → List Vec3 → Mat3 × Vec3) (indexes : List ℕ)
    (parallel : Bool) (every : ℕ) (st : AccState) (f : Frame) :
    (accStep inbox sup indexes parallel every st f).meanPos
        = addV st.meanPos ((fetch_np (inbox f)).map (fun p =>
            vadd (vecMulMat p (sup st.alignConf (indexed_fetch_np indexes (inbox f))).1)
              (sup st.alignConf (indexed_fetch_np indexes (inbox f))).2))
    ∧ (accStep inbox sup indexes parallel every st f).meanA1
        = addV st.meanA1 ((fetch_a1 (inbox f)).map (fun p =>
            vecMulMat p (sup st.alignConf (indexed_fetch_np indexes (inbox f))).1))
    ∧ (accStep inbox sup indexes parallel every st f).meanA3
        = addV st.meanA3 ((fetch_a3 (inbox f)).map (fun p =>
            vecMulMat p (sup st.alignConf (indexed_fetch_np indexes (inbox f))).1))
    ∧ ∀ sup2 : List Vec3 → List Vec3 → Mat3 × Vec3,
        (sup2 st.alignConf (indexed_fetch_np indexes (inbox f))).1
          = (sup st.alignConf (indexed_fetch_np indexes (inbox f))).1 →
        (accStep inbox sup2 indexes parallel every st f).meanA1
          = (accStep inbox sup indexes parallel every st f).meanA1
        ∧ (accStep inbox sup2 indexes parallel every st f).meanA3
          = (accStep inbox sup indexes parallel every st f).meanA3 := by
  refine ⟨rfl, rfl, rfl, ?tran⟩
  intro sup2 hrot
  constructor
  · rw [accStep_meanA1, accStep_meanA1]
    unfold a1Contrib
    rw [hrot]
  · rw [accStep_meanA3, accStep_meanA3]
    unfold a3Contrib
    rw [hrot]

/-- A second concrete superimposer: same (identity) rotation as `csup`
but a nonzero translation. -/
def csup2 : List Vec3 → List Vec3 → Mat3 × Vec3 := fun _ _ => (idMat3, ⟨5, 0, 0⟩)

theorem C4_translation_only_positions_witness :
    (accStep cinbox csup2 [0] false 0
        { meanPos := [vzero], meanA1 := [vzero], meanA3 := [vzero], inter := [],
          confid := 0, alignConf := [vzero] } (cframe 0 ⟨1, 0, 0⟩)).meanA1
      = (accStep cinbox csup [0] false 0
        { meanPos := [vzero], meanA1 := [vzero], meanA3 := [vzero], inter := [],
          confid := 0, alignConf := [vzero] } (cframe 0 ⟨1, 0, 0⟩)).meanA1
    ∧ (accStep cinbox csup2 [0] false 0
        { meanPos := [vzero], meanA1 := [vzero], meanA3 := [vzero], inter := [],
          confid := 0, alignConf := [vzero] } (cframe 0 ⟨1, 0, 0⟩)).meanA3
      = (accStep cinbox csup [0] false 0
        { meanPos := [vzero], meanA1 := [vzero], meanA3 := [vzero], inter := [],
          confid := 0, alignConf := [vzero] } (cframe 0 ⟨1, 0, 0⟩)).meanA3 :=
  (C4_translation_only_positions cinbox csup [0] false 0
      { meanPos := [vzero], meanA1 := [vzero], meanA3 := [vzero], inter := [],
        confid := 0, alignConf := [vzero] } (cframe 0 ⟨1, 0, 0⟩)).2.2.2
    csup2 (by decide)

/-- C8: `compute_mean` never mutates the reference point set: the
`align_conf` array threaded through the accumulator state is the same
after the call as before it, however many frames are processed. -/
theorem C8_reference_not_mutated (inbox : Frame → Frame)
    (sup : List Vec3 → List Vec3 → Mat3 × Vec3) (indexes : List ℕ)
    (parallel : Bool) (every n_nuc num_confs : ℕ) (align_conf : List Vec3)
    (traj : List Frame) (start stop : Option ℕ) :
    (compute_mean inbox sup indexes parallel every n_nuc num_confs align_conf traj
        start stop).alignConf = align_conf := by
  rw [compute_mean_eq_foldl, foldl_accStep_alignConf]

theorem foldl_vadd_general (a : Vec3) (l : List Vec3) :
    List.foldl vadd a l = vadd a (List.foldl vadd vzero l) := by
  induction l generalizing a with
  | nil => exact (vadd_zero_right a).symm
  | cons x xs ih =>
    rw [List.foldl_cons, ih (vadd a x), List.foldl_cons, ih (vadd vzero x),
      vadd_zero_left, vadd_assoc]

theorem foldl_vadd_map_sub (c : Vec3) (l : List Vec3) :
    List.foldl vadd vzero (l.map (fun p => vsub p c))
      = vsub (List.foldl vadd vzero l) (vscale (l.length : ℚ) c) := by
  induction l with
  | nil => simp [vsub, vscale, vzero]
  | cons x xs ih =>
    rw [List.map_cons, List.foldl_cons, foldl_vadd_general, ih,
      List.foldl_cons, foldl_vadd_general (vadd vzero x), vadd_zero_left, vadd_zero_left]
    simp only [vadd, vsub, vscale, List.length_cons, Vec3.mk.injEq]
    refine ⟨?hx, ?hy, ?hz⟩ <;> (push_cast; ring)

/-- C7: subtracting `compute_cms(P)` from every point of a non-empty
point set `P` yields a point set whose centroid is the zero vector: the
recentred reference point set has its centre of mass at the origin. -/
theorem C7_recentred_centroid_zero (points : List Vec3) (h : points ≠ []) :
    compute_cms (points.map (fun p => vsub p (compute_cms points))) = vzero := by
  have hn : (points.length : ℚ) ≠ 0 := by
    have : points.length ≠ 0 := fun hc => h (List.length_eq_zero.mp hc)
    exact_mod_cast this
  unfold compute_cms
  rw [List.length_map, foldl_vadd_map_sub]
  simp only [vdiv, vsub, vscale, vzero, Vec3.mk.injEq]
  refine ⟨?hx, ?hy, ?hz⟩ <;> (field_simp)

theorem C7_recentred_centroid_zero_witness :
    compute_cms ([(⟨1, 2, 3⟩ : Vec3), ⟨3, 2, 1⟩].map
      (fun p => vsub p (compute_cms [(⟨1, 2, 3⟩ : Vec3), ⟨3, 2, 1⟩]))) = vzero :=
  C7_recentred_centroid_zero [⟨1, 2, 3⟩, ⟨3, 2, 1⟩] (by decide)

/-- A 3-vector of reals: the idealization of a numpy float vector in
the normalization step (which needs a square root). -/
structure RVec3 where
  x : ℝ
  y : ℝ
  z : ℝ

/-- `np.linalg.norm(v)` for a 3-vector: the Euclidean norm. -/
noncomputable def rnorm (v : RVec3) : ℝ :=
  Real.sqrt (v.x ^ 2 + v.y ^ 2 + v.z ^ 2)

/-- `normalize(v)`: if the norm is `0` return `v` unchanged, else
`v / norm(v)`. -/
noncomputable def normalize (v : RVec3) : RVec3 :=
  if rnorm v = 0 then v
  else ⟨v.x / rnorm v, v.y / rnorm v, v.z / rnorm v⟩

/-- The accumulator's rational sums viewed as reals for finalization. -/
noncomputable def toRVec (v : Vec3) : RVec3 :=
  ⟨(v.x : ℝ), (v.y : ℝ), (v.z : ℝ)⟩

/-- Division of a vector by the processed-frame count. -/
noncomputable def rdivN (v : RVec3) (n : ℕ) : RVec3 :=
  ⟨v.x / (n : ℝ), v.y / (n : ℝ), v.z / (n : ℝ)⟩

/-- One entry of the finalizer's `a1_mean`/`a3_mean` lists:
`normalize(v)` for `v` in `orientation_sum / processed_frames`. -/
noncomputable def meanOrientation (sum : Vec3) (processed_frames : ℕ) : RVec3 :=
  normalize (rdivN (toRVec sum) processed_frames)

/-- The finalizer's orientation-mean list:
`[normalize(v) for v in (storage / processed_frames)]`. -/
noncomputable def orientationMeans (sums : List Vec3) (processed_frames : ℕ) : List RVec3 :=
  sums.map (fun v => meanOrientation v processed_frames)

theorem rnorm_zero : rnorm ⟨0, 0, 0⟩ = 0 := by
  simp [rnorm]

theorem normalize_zero_vec : normalize ⟨0, 0, 0⟩ = ⟨0, 0, 0⟩ := by
  unfold normalize
  rw [if_pos rnorm_zero]

theorem rnorm_eq_zero_iff (v : RVec3) : rnorm v = 0 ↔ v = ⟨0, 0, 0⟩ := by
  obtain ⟨x, y, z⟩ := v
  constructor
  · intro h
    have hs : x ^ 2 + y ^ 2 + z ^ 2 ≤ 0 := Real.sqrt_eq_zero'.mp h
    have hx : x = 0 := by nlinarith [sq_nonneg x, sq_nonneg y, sq_nonneg z]
    have hy : y = 0 := by nlinarith [sq_nonneg x, sq_nonneg y, sq_nonneg z]
    have hz : z = 0 := by nlinarith [sq_nonneg x, sq_nonneg y, sq_nonneg z]
    simp [hx, hy, hz]
  · intro h
    rw [h]
    exact rnorm_zero

theorem normalize_unit (v : RVec3) (h : v ≠ ⟨0, 0, 0⟩) :
    rnorm (normalize v) = 1 := by
  have hn : rnorm v ≠ 0 := fun hc => h ((rnorm_eq_zero_iff v).mp hc)
  have hs : rnorm v ^ 2 = v.x ^ 2 + v.y ^ 2 + v.z ^ 2 :=
    Real.sq_sqrt (by positivity)
  unfold normalize
  rw [if_neg hn]
  have harg : (v.x / rnorm v) ^ 2 + (v.y / rnorm v) ^ 2 + (v.z / rnorm v) ^ 2 = 1 := by
    field_simp
    linarith [hs]
  have hun : rnorm ⟨v.x / rnorm v, v.y / rnorm v, v.z / rnorm v⟩
      = Real.sqrt ((v.x / rnorm v) ^ 2 + (v.y / rnorm v) ^ 2 + (v.z / rnorm v) ^ 2) := rfl
  rw [hun, harg, Real.sqrt_one]

/-- C5: `normalize` applied to the zero vector returns the zero vector
unchanged (instead of failing on the zero norm), and hence every entry
of the finalizer's orientation-mean list whose accumulated sum is the
zero vector — as after zero processed frames — finalizes to the zero
vector, for any processed-frame count. -/
theorem C5_normalize_zero_total :
    normalize ⟨0, 0, 0⟩ = ⟨0, 0, 0⟩
    ∧ ∀ (sums : List Vec3) (count i : ℕ), sums[i]? = some vzero →
        (orientationMeans sums count)[i]? = some ⟨0, 0, 0⟩ := by
  refine ⟨normalize_zero_vec, ?fin⟩
  intro sums count i hi
  unfold orientationMeans
  rw [List.getElem?_map, hi]
  have hdiv : rdivN (toRVec vzero) count = ⟨0, 0, 0⟩ := by
    simp [rdivN, toRVec, vzero]
  show some (meanOrientation vzero count) = some ⟨0, 0, 0⟩
  rw [meanOrientation, hdiv, normalize_zero_vec]

theorem C5_normalize_zero_total_witness :
    normalize ⟨0, 0, 0⟩ = ⟨0, 0, 0⟩
    ∧ (orientationMeans [vzero] 0)[0]? = some ⟨0, 0, 0⟩ :=
  ⟨C5_normalize_zero_total.1, C5_normalize_zero_total.2 [vzero] 0 0 rfl⟩

/-- C6: a finalized mean orientation vector has Euclidean norm `1`
whenever its accumulated orientation sum is nonzero (and the run
processed at least one frame — which is forced: the last conjunct shows
a run with zero processed frames leaves every orientation sum at the
zero vector); when the sum is the zero vector, the output is the zero
vector. -/
theorem C6_mean_orientation_unit_norm (sum : Vec3) (count : ℕ) :
    (count ≠ 0 → sum ≠ vzero → rnorm (meanOrientation sum count) = 1)
    ∧ (sum = vzero → meanOrientation sum count = ⟨0, 0, 0⟩)
    ∧ ∀ (inbox : Frame → Frame) (sup : List Vec3 → List Vec3 → Mat3 × Vec3)
        (indexes : List ℕ) (parallel : Bool) (every n_nuc num_confs : ℕ)
        (align_conf : List Vec3) (traj : List Frame) (start stop : Option ℕ),
        (compute_mean inbox sup indexes parallel every n_nuc num_confs align_conf traj
          start stop).confid = 0 →
        (compute_mean inbox sup indexes parallel every n_nuc num_confs align_conf traj
          start stop).meanA1 = List.replicate n_nuc vzero
        ∧ (compute_mean inbox sup indexes parallel every n_nuc num_confs align_conf traj
          start stop).meanA3 = List.replicate n_nuc vzero := by
  refine ⟨?unit, ?zero, ?empty⟩
  case unit =>
    intro hc hsum
    apply normalize_unit
    intro hveq
    apply hsum
    obtain ⟨a, b, c⟩ := sum
    simp only [rdivN, toRVec, RVec3.mk.injEq] at hveq
    have hcr : (count : ℝ) ≠ 0 := Nat.cast_ne_zero.mpr hc
    obtain ⟨ha, hb, hcz⟩ := hveq
    have ha2 : (a : ℝ) = 0 := by
      rcases div_eq_zero_iff.mp ha with h | h
      · exact h
      · exact absurd h hcr
    have hb2 : (b : ℝ) = 0 := by
      rcases div_eq_zero_iff.mp hb with h | h
      · exact h
      · exact absurd h hcr
    have hc2 : (c : ℝ) = 0 := by
      rcases div_eq_zero_iff.mp hcz with h | h
      · exact h
      · exact absurd h hcr
    have : a = 0 ∧ b = 0 ∧ c = 0 :=
      ⟨by exact_mod_cast ha2, by exact_mod_cast hb2, by exact_mod_cast hc2⟩
    simp [vzero, this.1, this.2.1, this.2.2]
  case zero =>
    intro h
    rw [h]
    have hdiv : rdivN (toRVec vzero) count = ⟨0, 0, 0⟩ := by
      simp [rdivN, toRVec, vzero]
    rw [meanOrientation, hdiv, normalize_zero_vec]
  case empty =>
    intro inbox sup indexes parallel every n_nuc num_confs align_conf traj start stop h
    rw [compute_mean_confid] at h
    have hw : meanWindow traj num_confs start stop = [] := List.length_eq_zero.mp h
    constructor
    · rw [compute_mean_meanA1, hw]
      rfl
    · rw [compute_mean_meanA3, hw]
      rfl

theorem C6_mean_orientation_unit_norm_witness :
    rnorm (meanOrientation ⟨3, 4, 0⟩ 1) = 1
    ∧ meanOrientation vzero 1 = ⟨0, 0, 0⟩ :=
  ⟨(C6_mean_orientation_unit_norm ⟨3, 4, 0⟩ 1).1 (by decide) (by decide),
   (C6_mean_orientation_unit_norm vzero 1).2.1 rfl⟩

/-- The format-option handling of `compute_mean.py`'s `__main__`
(lines 176-192): `args.format` is the `nargs=1` token list (or absent);
`outjson` is set when `"json"` is a member, `outoxdna` when `"oxDNA"`
or `"oxdna"` is, both when `"both"` is; if both remain false the
program prints an error and exits with status `1`; with no `-f` the
default is oxDNA output. -/
def parseFormat (format : Option (List String)) : Except ℕ (Bool × Bool) :=
  match format with
  | some fmt =>
    let outjson : Bool := decide ("json" ∈ fmt)
    let outoxdna : Bool := decide ("oxDNA" ∈ fmt) || decide ("oxdna" ∈ fmt)
    let outjson : Bool := outjson || decide ("both" ∈ fmt)
    let outoxdna : Bool := outoxdna || decide ("both" ∈ fmt)
    if outjson = false ∧ outoxdna = false then Except.error 1
    else Except.ok (outjson, outoxdna)
  | none => Except.ok (false, true)

/-- Externally visible actions of `compute_mean.py`'s `__main__`,
in program order. -/
inductive MainEvent where
  | topologyRead
  | trajectoryRead
  | fileWrite
  | exitEv (code : ℕ)
deriving DecidableEq

/-- The event skeleton of `compute_mean.py`'s `__main__` as a function
of the `-f` argument: the format token is parsed (lines 176-192) before
the index/topology file is read (lines 214-224), before `cal_confs` and
the reference pick first read the trajectory (lines 256-272), before
the accumulation reads the remaining frames, and before any output file
is written (lines 313-333); on a format error the program exits with
the error's status and none of the later actions happen. -/
def computeMeanMainEvents (format : Option (List String)) : List MainEvent :=
  match parseFormat format with
  | Except.error code => [MainEvent.exitEv code]
  | Except.ok _ =>
      [MainEvent.topologyRead, MainEvent.trajectoryRead, MainEvent.trajectoryRead,
       MainEvent.fileWrite]

/-- C9: an `-f` token that is none of `json`, `oxDNA`, `oxdna`, `both`
makes the CLI exit with status `1` (non-zero) before any trajectory
frame is read, and no output file is written. -/
theorem C9_unrecognized_format_exits (tok : String)
    (h : tok ∉ ["json", "oxDNA", "oxdna", "both"]) :
    computeMeanMainEvents (some [tok]) = [MainEvent.exitEv 1]
    ∧ MainEvent.trajectoryRead ∉ computeMeanMainEvents (some [tok])
    ∧ MainEvent.fileWrite ∉ computeMeanMainEvents (some [tok]) := by
  simp only [List.mem_cons, List.mem_singleton, not_or] at h
  obtain ⟨h1, h2, h3, h4, _⟩ := h
  have hjson : decide ("json" ∈ [tok]) = false := by
    simp only [List.mem_singleton, decide_eq_false_iff_not]
    exact fun hc => h1 hc.symm
  have hoxDNA : decide ("oxDNA" ∈ [tok]) = false := by
    simp only [List.mem_singleton, decide_eq_false_iff_not]
    exact fun hc => h2 hc.symm
  have hoxdna : decide ("oxdna" ∈ [tok]) = false := by
    simp only [List.mem_singleton, decide_eq_false_iff_not]
    exact fun hc => h3 hc.symm
  have hboth : decide ("both" ∈ [tok]) = false := by
    simp only [List.mem_singleton, decide_eq_false_iff_not]
    exact fun hc => h4 hc.symm
  have hparse : parseFormat (some [tok]) = Except.error 1 := by
    simp only [parseFormat]
    rw [hjson, hoxDNA, hoxdna, hboth]
    simp
  have hev : computeMeanMainEvents (some [tok]) = [MainEvent.exitEv 1] := by
    unfold computeMeanMainEvents
    rw [hparse]
  refine ⟨hev, ?ht, ?hw⟩
  · rw [hev]
    simp
  · rw [hev]
    simp

theorem C9_unrecognized_format_exits_witness :
    computeMeanMainEvents (some ["xml"]) = [MainEvent.exitEv 1]
    ∧ MainEvent.trajectoryRead ∉ computeMeanMainEvents (some ["xml"])
    ∧ MainEvent.fileWrite ∉ computeMeanMainEvents (some ["xml"]) :=
  C9_unrecognized_format_exits "xml" (by decide)

/-- Python `datafile.find(".")` as an option: index of the first dot. -/
def dotIndex (s : String) : Option ℕ :=
  s.toList.findIdx? (fun c => c == '.')

/-- The filename of the `i`-th data file in the multi-dataset branch:
`datafile` with `str(i)` spliced in at the first dot (when `find`
returns `-1`, Python's slices degrade to `datafile` minus its last
character plus that last character). -/
def indexedName (datafile : String) (i : ℕ) : String :=
  match dotIndex datafile with
  | some k =>
      ((datafile.toList.take k) ++ (toString i).toList ++ datafile.toList.drop k).asString
  | none =>
      (datafile.toList.dropLast ++ (toString i).toList
        ++ (datafile.toList.getLast?.elim [] (fun c => [c]))).asString

/-- The local names `distance.py`'s `__main__` has assigned before the
data-dump statement of lines 85-87 executes (scanned from the source:
every assignment target and loop target up to line 83; the name `data`
is only ever a loop target inside the `len(distances) > 1` branch, so
it is absent). -/
def distanceMainLocals : List String :=
  ["parser", "args", "inputfiles", "trajectories", "p1s", "p2s", "outfile",
   "hist", "lineplt", "distances", "i", "inputfile", "dat_file", "particle_1",
   "particle_2", "command_for_data", "launchargs", "myinput", "out", "err",
   "line", "datafile"]

/-- The data-dump step of `distance.py` (lines 76-87), returning the
names of the files whose content write succeeded, or the uncaught
Python error.  In the multi-dataset branch the loop target `data` is
bound per iteration and each dataset is written to its indexed file; in
the single-dataset branch `f.write(data)` evaluates the name `data` in
the enclosing scope `env` — if it is unbound there, a `NameError` is
raised (the `open` has already created `datafile` empty, but no content
is written to it). -/
def dataDump (env : List String) (distances : List (List ℚ)) (datafile : String) :
    Except String (List String) :=
  if distances.length > 1 then
    Except.ok ((List.range distances.length).map (fun i => indexedName datafile i))
  else
    if "data" ∈ env then Except.ok [datafile]
    else Except.error "NameError: name data is not defined"

/-- C10: with the data option and exactly one input dataset, the dump
step's single-dataset branch evaluates the name `data`, which is bound
neither in that branch nor anywhere earlier in `__main__`, so the step
raises an unhandled `NameError` and no data file containing the
DNAnalysis output is written. -/
theorem C10_data_dump_name_error (distances : List (List ℚ)) (datafile : String)
    (h : distances.length = 1) :
    "data" ∉ distanceMainLocals
    ∧ dataDump distanceMainLocals distances datafile
      = Except.error "NameError: name data is not defined" := by
  constructor
  · decide
  · unfold dataDump
    rw [if_neg (by omega : ¬ distances.length > 1),
      if_neg (by decide : ¬ ("data" ∈ distanceMainLocals))]

theorem C10_data_dump_name_error_witness :
    "data" ∉ distanceMainLocals
    ∧ dataDump distanceMainLocals [[(5 : ℚ) / 2]] "data.txt"
      = Except.error "NameError: name data is not defined" :=
  C10_data_dump_name_error [[(5 : ℚ) / 2]] "data.txt" rfl

end OxDNA
